import Mathlib

/-!
Verification of the WV bill scraper (`openstates/wv/bills.py`).

The development shallowly embeds the Python source: the canonical URL key
(`_Url`), the three version-source adapters, the version reconciler
(`scrape_versions`), the vote text parser (`scrape_vote`), and the legacy
index builder (`_get_version_filenames`).  External collaborators (HTTP
fetch, file cache, page DOM) are modelled as explicit oracles.  Python
strings are byte strings; characters are modelled as Lean `Char` restricted
in practice to the Latin-1 range.
-/

namespace WV

/-! ## Basic character and string helpers (Python semantics) -/

/-- ASCII lowercasing, as Python 2 `str.lower()` does byte-wise. -/
def lowerChar (c : Char) : Char :=
  if 65 ≤ c.toNat ∧ c.toNat ≤ 90 then Char.ofNat (c.toNat + 32) else c

def lowerL (l : List Char) : List Char := l.map lowerChar

/-- Embedding of Python `str.lower()`. -/
def pyLower (s : String) : String := String.mk (lowerL s.toList)

def isPyDigit (c : Char) : Bool := 48 ≤ c.toNat && c.toNat ≤ 57

/-- Python `\s` for the byte strings we deal with. -/
def isPySpace (c : Char) : Bool :=
  c = ' ' || c = '\t' || c = '\n' || c = '\r' || c = '\x0b' || c = '\x0c'

def isAsciiLetter (c : Char) : Bool :=
  (65 ≤ c.toNat && c.toNat ≤ 90) || (97 ≤ c.toNat && c.toNat ≤ 122)

/-- `pat` is an initial run of `l`. -/
def leadsWith : List Char → List Char → Bool
  | [], _ => true
  | _ :: _, [] => false
  | a :: as, b :: bs => a = b && leadsWith as bs

theorem leadsWith_length_le {p l : List Char} (h : leadsWith p l = true) :
    p.length ≤ l.length := by
  induction p generalizing l with
  | nil => simp
  | cons a as ih =>
    cases l with
    | nil => simp [leadsWith] at h
    | cons b bs =>
      simp only [leadsWith, Bool.and_eq_true] at h
      simpa using ih h.2

/-- Embedding of Python `str.startswith`. -/
def pyStartsWith (s pat : String) : Bool := leadsWith pat.toList s.toList

/-- Embedding of Python `str.endswith`. -/
def pyEndsWith (s pat : String) : Bool := leadsWith pat.toList.reverse s.toList.reverse

/-- Substring containment, Python `pat in s`. -/
def containsSub (pat : List Char) : List Char → Bool
  | [] => leadsWith pat []
  | c :: rest => leadsWith pat (c :: rest) || containsSub pat rest

def pyIn (pat s : String) : Bool := containsSub pat.toList s.toList

/-- Embedding of Python `str.rstrip()`. -/
def pyRstripL (l : List Char) : List Char := (l.reverse.dropWhile isPySpace).reverse

def pyRstrip (s : String) : String := String.mk (pyRstripL s.toList)

/-- Embedding of Python `str.strip()`. -/
def pyStripL (l : List Char) : List Char :=
  ((l.dropWhile isPySpace).reverse.dropWhile isPySpace).reverse

def pyStrip (s : String) : String := String.mk (pyStripL s.toList)

/-- Split at the first occurrence of `c`: `some (before, after)`. -/
def splitFirstOpt : List Char → Char → Option (List Char × List Char)
  | [], _ => none
  | x :: r, c =>
    if x = c then some ([], r)
    else
      match splitFirstOpt r c with
      | none => none
      | some (a, b) => some (x :: a, b)

/-- Split on every occurrence of the single character `c`,
Python `str.split(c)` for a one-character separator. -/
def splitChar (c : Char) : List Char → List (List Char)
  | [] => [[]]
  | x :: r =>
    if x = c then [] :: splitChar c r
    else
      match splitChar c r with
      | [] => [[x]]
      | s :: ss => (x :: s) :: ss

/-- Split on every occurrence of the nonempty separator `sep`, Python
`str.split(sep)`.  Each step consumes at least one character, so fuel
equal to the input length never runs out. -/
def splitSubFuel (sep : List Char) : Nat → List Char → List (List Char)
  | _, [] => [[]]
  | 0, l => [l]
  | f + 1, c :: rest =>
    if leadsWith sep (c :: rest) = true ∧ sep ≠ [] then
      [] :: splitSubFuel sep f ((c :: rest).drop sep.length)
    else
      match splitSubFuel sep f rest with
      | [] => [[c]]
      | s :: ss => (c :: s) :: ss

def splitSubL (sep l : List Char) : List (List Char) := splitSubFuel sep l.length l

def pySplitSub (s sep : String) : List String :=
  (splitSubL sep.toList s.toList).map String.mk

theorem dropWhile_length_le (p : Char → Bool) (l : List Char) :
    (l.dropWhile p).length ≤ l.length := by
  induction l with
  | nil => simp
  | cons c rest ih =>
    by_cases h : p c
    · simp only [List.dropWhile, h]
      exact Nat.le_trans ih (by simp)
    · simp [List.dropWhile, h]

/-- Split on runs of whitespace, Python `str.split()` with no argument
(fuel-driven structural recursion; fuel equal to the length suffices). -/
def splitWsFuel : Nat → List Char → List (List Char)
  | _, [] => []
  | 0, _ => []
  | f + 1, c :: rest =>
    if isPySpace c then splitWsFuel f rest
    else
      (c :: rest.takeWhile (fun x => !isPySpace x)) ::
        splitWsFuel f (rest.dropWhile (fun x => !isPySpace x))

def splitWsL (l : List Char) : List (List Char) := splitWsFuel l.length l

def pySplitWs (s : String) : List String := (splitWsL s.toList).map String.mk

/-- Replace every occurrence of the nonempty `pat` by `repl`,
Python `str.replace(pat, repl)` (fuel-driven structural recursion). -/
def replaceSubFuel (pat repl : List Char) : Nat → List Char → List Char
  | _, [] => []
  | 0, l => l
  | f + 1, c :: rest =>
    if leadsWith pat (c :: rest) = true ∧ pat ≠ [] then
      repl ++ replaceSubFuel pat repl f ((c :: rest).drop pat.length)
    else
      c :: replaceSubFuel pat repl f rest

def pyReplace (s pat repl : String) : String :=
  String.mk (replaceSubFuel pat.toList repl.toList s.toList.length s.toList)

/-- Value of a hexadecimal digit, either case. -/
def hexVal (c : Char) : Option Nat :=
  if 48 ≤ c.toNat ∧ c.toNat ≤ 57 then some (c.toNat - 48)
  else if 97 ≤ c.toNat ∧ c.toNat ≤ 102 then some (c.toNat - 87)
  else if 65 ≤ c.toNat ∧ c.toNat ≤ 70 then some (c.toNat - 55)
  else none

def hexDigitLower (n : Nat) : Char :=
  if n < 10 then Char.ofNat (48 + n) else Char.ofNat (87 + n)

def hexDigitUpper (n : Nat) : Char :=
  if n < 10 then Char.ofNat (48 + n) else Char.ofNat (55 + n)

def digitsToNat (l : List Char) : Nat :=
  l.foldl (fun acc c => 10 * acc + (c.toNat - 48)) 0

/-! ## `urllib` / `urlparse` collaborators

Embeddings of the Python 2 standard-library functions the scraper imports:
`unquote_plus`, `parse_qsl`, `urlparse`, `urlencode`, `quote`, `urlunparse`.
The IPv6-bracket `ValueError` of `urlsplit` is not modelled (no URL in this
program contains brackets), and multi-byte characters are treated as single
Latin-1 bytes. -/

/-- Python 2 `urllib.unquote`: each `%` followed by two hex digits becomes
the corresponding byte; otherwise the `%` is kept literally. -/
def pyUnquoteL : List Char → List Char
  | '%' :: a :: b :: rest =>
    match hexVal a, hexVal b with
    | some x, some y => Char.ofNat (16 * x + y) :: pyUnquoteL rest
    | _, _ => '%' :: pyUnquoteL (a :: b :: rest)
  | c :: rest => c :: pyUnquoteL rest
  | [] => []

/-- Python 2 `urllib.unquote_plus`: `+` becomes a space, then `unquote`. -/
def pyUnquotePlusL (l : List Char) : List Char :=
  pyUnquoteL (l.map fun c => if c = '+' then ' ' else c)

/-- Python 2 `urlparse.parse_qsl` with default arguments: split the query on
`&` and `;`, keep only fields with a `=` and a nonempty value, and unquote
names and values. -/
def parseQslL (qs : List Char) : List (List Char × List Char) :=
  let pairs := (splitChar '&' qs).flatMap (fun s1 => splitChar ';' s1)
  pairs.filterMap fun nv =>
    match splitFirstOpt nv '=' with
    | none => none
    | some (n, v) =>
      if v = [] then none
      else some (pyUnquotePlusL n, pyUnquotePlusL v)

/-- The scheme characters accepted by `urlparse.urlsplit`. -/
def isSchemeChar (c : Char) : Bool :=
  isAsciiLetter c || isPyDigit c || c = '+' || c = '-' || c = '.'

/-- `urlparse.uses_query`: schemes for which the query is split off. -/
def usesQuery : List (List Char) :=
  (["http", "wais", "imap", "https", "shttp", "mms", "gopher", "rtsp",
    "rtspu", "sip", "sips", "snews", "videotex", "nntp", "wsgiref", "ftp",
    "prospero", "rtmp", ""]).map String.toList

/-- `urlparse.uses_fragment`: schemes for which the fragment is split off. -/
def usesFragment : List (List Char) :=
  (["ftp", "hdl", "http", "gopher", "news", "nntp", "wais", "https",
    "shttp", "snews", "file", "prospero", ""]).map String.toList

structure SplitRes where
  scheme : List Char
  netloc : List Char
  path : List Char
  query : List Char
  fragment : List Char
deriving Repr

instance : DecidableEq SplitRes := fun a b =>
  decidable_of_iff (a.scheme = b.scheme ∧ a.netloc = b.netloc ∧ a.path = b.path ∧
    a.query = b.query ∧ a.fragment = b.fragment) (by cases a; cases b; simp)

def netDelim (c : Char) : Bool := c = '/' || c = '?' || c = '#'

/-- Scheme detection of `urlsplit`: a nonempty run of scheme characters
before the first `:`, unless everything after the colon is a port number. -/
def splitScheme (url : List Char) : List Char × List Char :=
  match splitFirstOpt url ':' with
  | some (pre, rest) =>
    if pre ≠ [] ∧ pre.all isSchemeChar ∧ ¬(rest ≠ [] ∧ rest.all isPyDigit)
    then (lowerL pre, rest) else ([], url)
  | none => ([], url)

/-- `urlsplit._splitnetloc`: after a leading `//`, the netloc runs to the
first of `/`, `?`, `#`. -/
def splitNetloc (u : List Char) : List Char × List Char :=
  match u with
  | '/' :: '/' :: r =>
    (r.takeWhile (fun c => !netDelim c), r.dropWhile (fun c => !netDelim c))
  | u => ([], u)

/-- Fragment split, applied only for schemes in `uses_fragment`. -/
def splitFragmentPart (scheme u : List Char) : List Char × List Char :=
  if scheme ∈ usesFragment ∧ '#' ∈ u then
    match splitFirstOpt u '#' with
    | some (a, b) => (a, b)
    | none => (u, [])
  else (u, [])

/-- Query split, applied only for schemes in `uses_query`. -/
def splitQueryPart (scheme u : List Char) : List Char × List Char :=
  if scheme ∈ usesQuery ∧ '?' ∈ u then
    match splitFirstOpt u '?' with
    | some (a, b) => (a, b)
    | none => (u, [])
  else (u, [])

/-- Python 2 `urlparse.urlsplit` (general branch; the `http` fast path is
behaviourally identical for schemes in `uses_query`/`uses_fragment`). -/
def pyUrlsplitL (url : List Char) : SplitRes :=
  let su := splitScheme url
  let nu := splitNetloc su.2
  let uf := splitFragmentPart su.1 nu.2
  let pq := splitQueryPart su.1 uf.1
  ⟨su.1, nu.1, pq.1, pq.2, uf.2⟩

/-- `urlparse._splitparams`: split the parameters off the last path
segment at the first `;` after the last `/`. -/
def splitParamsL (path : List Char) : List Char × List Char :=
  if ';' ∈ path then
    if '/' ∈ path then
      let rev := path.reverse
      let b := (rev.takeWhile (· ≠ '/')).reverse
      let a := (rev.dropWhile (· ≠ '/')).reverse
      match splitFirstOpt b ';' with
      | some (b1, b2) => (a ++ b1, b2)
      | none => (path, [])
    else
      match splitFirstOpt path ';' with
      | some (p1, p2) => (p1, p2)
      | none => (path, [])
  else (path, [])

/-! ## The canonical URL key (`_Url`) -/

/-- The normalized tuple `_Url` stores: the `urlparse` result of the
lowercased URL, with the path percent-decoded and the query parsed into a
set of (name, value) pairs.  Equality and hashing are structural. -/
structure UrlKey where
  scheme : List Char
  netloc : List Char
  path : List Char
  params : List Char
  query : Finset (List Char × List Char)
  fragment : List Char

instance : DecidableEq UrlKey := fun a b =>
  decidable_of_iff (a.scheme = b.scheme ∧ a.netloc = b.netloc ∧ a.path = b.path ∧
    a.params = b.params ∧ a.query = b.query ∧ a.fragment = b.fragment)
    (by cases a; cases b; simp)

/-- `_Url.__init__` on an already-lowercased URL. -/
def mkKey (l : List Char) : UrlKey :=
  let s := pyUrlsplitL l
  let pp := splitParamsL s.path
  { scheme := s.scheme, netloc := s.netloc,
    path := pyUnquotePlusL pp.1, params := pp.2,
    query := (parseQslL s.query).toFinset, fragment := s.fragment }

/-- `_Url(url)`: the whole URL is lowercased before parsing. -/
def canonicalKey (u : String) : UrlKey := mkKey (lowerL u.toList)

/-- A structural hash for `UrlKey`; equal keys hash equal by congruence
(Python's `__hash__` is likewise a pure function of `self.parts`). -/
def urlKeyHash (k : UrlKey) : Nat :=
  k.scheme.length + 3 * k.netloc.length + 5 * k.path.length +
    7 * k.params.length + 11 * k.fragment.length +
    13 * k.query.sum (fun p => p.1.length + p.2.length)

/-! ## URL construction collaborators (`urllib.quote`, `quote_plus`,
`urllib.urlencode`, `urlparse.urlunparse`) -/

/-- Characters never quoted by `urllib.quote` (`always_safe`). -/
def isAlwaysSafe (c : Char) : Bool :=
  isAsciiLetter c || isPyDigit c || c = '_' || c = '.' || c = '-'

/-- `%XX` with uppercase hex for one byte. -/
def pctUpper (c : Char) : List Char :=
  ['%', hexDigitUpper ((c.toNat % 256) / 16), hexDigitUpper (c.toNat % 16)]

/-- `urllib.quote` with the default `safe='/'`. -/
def pyQuote (s : String) : String :=
  String.mk (s.toList.flatMap fun c =>
    if isAlwaysSafe c || c = '/' then [c] else pctUpper c)

/-- `urllib.quote_plus` with the default `safe=''`. -/
def quotePlus (s : String) : String :=
  String.mk (s.toList.flatMap fun c =>
    if c = ' ' then ['+']
    else if isAlwaysSafe c then [c]
    else pctUpper c)

/-- `urllib.urlencode` on a list of (name, value) pairs. -/
def urlencode (pairs : List (String × String)) : String :=
  String.intercalate "&" (pairs.map fun p => quotePlus p.1 ++ "=" ++ quotePlus p.2)

/-- `urlparse.urlunparse` on a 6-tuple. -/
def urlunparse (scheme netloc path params query fragment : String) : String :=
  let url := if params ≠ "" then path ++ ";" ++ params else path
  let url :=
    if netloc ≠ "" ∨ pyStartsWith url "//" then
      "//" ++ netloc ++ (if url ≠ "" ∧ ¬pyStartsWith url "/" then "/" ++ url else url)
    else url
  let url := if scheme ≠ "" then scheme ++ ":" ++ url else url
  let url := if query ≠ "" then url ++ "?" ++ query else url
  if fragment ≠ "" then url ++ "#" ++ fragment else url

/-! ## Data model of the scraper -/

/-- Exceptions the scraper can raise. -/
inductive SErr where
  | indexError
  | valueError
  | attributeError
  | assertionError
  | nameError
  | jsonDecodeError
deriving DecidableEq, Repr

inductive Chamber where
  | upper
  | lower
deriving DecidableEq, Repr

/-- A version-document descriptor, the dict
`{'name': ..., 'url': ..., 'mimetype': ...}`. -/
structure Version where
  name : String
  url : String
  mimetype : String
deriving Repr

instance : DecidableEq Version := fun a b =>
  decidable_of_iff (a.name = b.name ∧ a.url = b.url ∧ a.mimetype = b.mimetype)
    (by cases a; cases b; simp)

/-- An anchor element of the bill's detail page: only its `title` and
(absolutized) `href` attributes are consulted. -/
structure Anchor where
  title : String
  href : String
deriving Repr

instance : DecidableEq Anchor := fun a b =>
  decidable_of_iff (a.title = b.title ∧ a.href = b.href) (by cases a; cases b; simp)

/-- A kernel-friendly equality decision for `Except` values. -/
instance {ε α : Type} [DecidableEq ε] [DecidableEq α] : DecidableEq (Except ε α) :=
  fun x y =>
    match x, y with
    | .ok a, .ok b => decidable_of_iff (a = b) (by simp)
    | .ok _, .error _ => isFalse (by simp)
    | .error _, .ok _ => isFalse (by simp)
    | .error a, .error b => decidable_of_iff (a = b) (by simp)

/-- `self._version_filenames`: normalized bill id ↦ list of
(dated folder, filename-without-extension) pairs. -/
abbrev Index := List (String × List (String × String))

def indexLookup (idx : Index) (k : String) : List (String × String) :=
  match (List.lookup k (idx : List (String × List (String × String)))) with
  | some v => v
  | none => []

/-! ## Version source adapters -/

/-- `'HTML - Introduced Version - SB 1'.split(' - ')[1]`; fewer than two
pieces raise `IndexError`. -/
def htmlName (title : String) : Except SErr String :=
  match (pySplitSub title " - ").get? 1 with
  | some n => .ok n
  | none => .error .indexError

/-- `re.compile(r'\"(.+)"').search(title).group(1)`: the text between the
first and the last double quote (at least one character), else
`AttributeError` from `.group` on `None`. -/
def nameFromQuotes (title : String) : Except SErr String :=
  let l := title.toList
  match splitFirstOpt l '"' with
  | none => .error .attributeError
  | some (_, rest) =>
    let revAfter := rest.reverse
    match splitFirstOpt revAfter '"' with
    | none => .error .attributeError
    | some (revTail, revGroup) =>
      let _ := revTail
      if revGroup = [] then .error .attributeError
      else .ok (String.mk revGroup.reverse)

/-- `_scrape_versions_normally`: anchors whose `title` starts with
`'HTML -'` yield html descriptors; anchors whose `title` contains
`'WordPerfect'` yield wordperfect descriptors. -/
def scrapeVersionsNormally (page : List Anchor) : Except SErr (List Version) := do
  let htmls ← (page.filter (fun a => pyStartsWith a.title "HTML -")).mapM
    (fun a => do
      let n ← htmlName a.title
      pure (⟨n, a.href, "text/html"⟩ : Version))
  let wpds ← (page.filter (fun a => pyIn "WordPerfect" a.title)).mapM
    (fun a => do
      let n ← nameFromQuotes a.title
      pure (⟨n, a.href, "application/wordperfect"⟩ : Version))
  pure (htmls ++ wpds)

/-- The guessed-document URL for one legacy-index entry: note the source
replaces `'+'` (not spaces) by `'%20'` before appending `.htm`, and the
result is then form-encoded by `urlencode`. -/
def buildGuessUrl (session i filename : String) : String :=
  let fn := pyReplace filename "+" "%20" ++ ".htm"
  urlunparse "http" "www.legis.state.wv.us" "/Bill_Status/bills_text.cfm" ""
    (urlencode [("billdoc", fn), ("yr", session), ("sesstype", "RS"), ("i", i)]) ""

/-- The `for folder, filename in filenames` loop of
`_scrape_versions_guess_url`. -/
def guessPairs (session i : String) : List (String × String) → List (String × String)
  | [] => []
  | (folder, fn) :: rest =>
    let _ := folder
    (fn, buildGuessUrl session i fn) :: guessPairs session i rest

/-- `_scrape_versions_guess_url`: yields (filename, guessed url) pairs for
each legacy-index entry of the normalized bill id.  `bill_id.split()` must
unpack into exactly two names or `ValueError` is raised. -/
def scrapeVersionsGuessUrl (session : String) (idx : Index) (billId : String) :
    Except SErr (List (String × String)) :=
  let bid := pyLower (pyReplace billId " " "")
  match pySplitWs billId with
  | [_billtype, i] => .ok (guessPairs session i (indexLookup idx bid))
  | _ => .error .valueError

/-- `_scrape_versions_wpd`: yields wordperfect descriptors for each
legacy-index entry.  The source rebinds the accumulator variable `url`
inside the loop (`url = '/'.join([url, ...])`), so each entry's URL is
built on top of the previous entry's full URL. -/
def scrapeVersionsWpd (session : String) (chamber : Chamber) (idx : Index)
    (billId : String) : List Version :=
  let chamberName := match chamber with | .upper => "senate" | .lower => "House"
  let bid := pyLower (pyReplace billId " " "")
  let url0 := "ftp://www.legis.state.wv.us/publicdocs/" ++ session ++ "/RS"
  let rec go (url : String) : List (String × String) → List Version
    | [] => []
    | (folder, fn) :: rest =>
      let f := pyQuote (fn ++ ".wpd")
      let url2 := url ++ "/" ++ chamberName ++ "/" ++ folder ++ "/" ++ f
      ⟨fn, url2, "application/wordperfect"⟩ :: go url2 rest
  go url0 (indexLookup idx bid)

/-! ## The version reconciler (`scrape_versions`) -/

/-- Phases 1 and 3: append each descriptor whose canonical key is unseen,
recording its key.  The Python `set` is modelled by a list consulted only
through membership. -/
def addVersions : List Version → List Version × List UrlKey → List Version × List UrlKey
  | [], st => st
  | v :: rest, (res, cache) =>
    let k := canonicalKey v.url
    if k ∈ cache then addVersions rest (res, cache)
    else addVersions rest (res ++ [v], k :: cache)

/-- Phase 2 of `scrape_versions`.  For each unseen candidate, the URL is
fetched (`none` models `scrapelib.HTTPError`, which is caught and skips the
candidate).  The `not_available` marker loop in the source (`for s in
not_available: if s not in html: continue`) has no effect, so no skip
happens on marker pages; instead `self.guess_count += 1` raises
`AttributeError` whenever the attribute was never set (`none`). -/
def processGuesses (fetch : String → Option String) :
    List (String × String) → List Version → List UrlKey → Option Nat →
    Except SErr (List Version × List UrlKey × Option Nat)
  | [], res, cache, gc => .ok (res, cache, gc)
  | (fn, url) :: rest, res, cache, gc =>
    if canonicalKey url ∈ cache then processGuesses fetch rest res cache gc
    else
      match fetch url with
      | none => processGuesses fetch rest res cache gc
      | some body =>
        let _html := pyLower body
        match gc with
        | none => .error .attributeError
        | some n =>
          processGuesses fetch rest (res ++ [⟨fn, url, "text/html"⟩])
            (canonicalKey url :: cache) (some (n + 1))

/-- `scrape_versions`: the three adapters in order, deduplicated through the
per-bill seen-set of canonical URL keys.  `gc` is the scraper object's
`guess_count` attribute (`none` = never assigned, which is its state in
this program). -/
def scrapeVersions (fetch : String → Option String) (gc : Option Nat)
    (session : String) (chamber : Chamber) (page : List Anchor)
    (billId : String) (idx : Index) : Except SErr (List Version) :=
  match scrapeVersionsNormally page with
  | .error e => .error e
  | .ok normals =>
    let s1 := addVersions normals ([], [])
    match scrapeVersionsGuessUrl session idx billId with
    | .error e => .error e
    | .ok guesses =>
      match processGuesses fetch guesses s1.1 s1.2 gc with
      | .error e => .error e
      | .ok (res2, cache2, _) =>
        .ok (addVersions (scrapeVersionsWpd session chamber idx billId) (res2, cache2)).1

/-! ## The vote text parser (`scrape_vote`) -/

inductive VT where
  | yes
  | no
  | other
  | paired
deriving DecidableEq, Repr

/-- The loop-local state of `scrape_vote`: the current vote type, the
`votes` defaultdict, and the local variables `date`, `motion`,
`yes_count`/`no_count`/`other_count` and `passed`, each `none` while still
unbound. -/
structure VoteState where
  vtype : Option VT := none
  yesv : List String := []
  nov : List String := []
  otherv : List String := []
  pairedv : List String := []
  date : Option (Nat × Nat × Nat) := none
  motion : Option String := none
  counts : Option (Nat × Nat × Nat) := none
  passed : Option Bool := none
deriving Repr

instance : DecidableEq VoteState := fun a b =>
  decidable_of_iff (a.vtype = b.vtype ∧ a.yesv = b.yesv ∧ a.nov = b.nov ∧
    a.otherv = b.otherv ∧ a.pairedv = b.pairedv ∧ a.date = b.date ∧
    a.motion = b.motion ∧ a.counts = b.counts ∧ a.passed = b.passed)
    (by cases a; cases b; simp)

/-- `re.search(r'(\d+)/(\d+)/(\d{4,4})$', line)`: the line ends with
`digits literal-slash digits literal-slash four-digits`; the groups of the
leftmost match, i.e. the maximal digit runs. -/
def dateMatch (s : String) : Option (Nat × Nat × Nat) :=
  let r := s.toList.reverse
  let y := r.takeWhile isPyDigit
  if y.length = 4 then
    match r.drop 4 with
    | '/' :: r2 =>
      let d := r2.takeWhile isPyDigit
      if d = [] then none
      else
        match r2.drop d.length with
        | '/' :: r3 =>
          let m := r3.takeWhile isPyDigit
          if m = [] then none
          else some (digitsToNat m.reverse, digitsToNat d.reverse, digitsToNat y.reverse)
        | _ => none
    | _ => none
  else none

/-- `datetime.strptime(..., "%m/%d/%Y")` rejects out-of-range fields with
`ValueError` (day-of-month vs. month interplay is approximated by the 1–31
range; no claim touches it). -/
def dateValid (d : Nat × Nat × Nat) : Bool :=
  1 ≤ d.1 && d.1 ≤ 12 && 1 ≤ d.2.1 && d.2.1 ≤ 31 && 1 ≤ d.2.2 && d.2.2 ≤ 9999

/-- Expect `pat`, returning the remainder. -/
def expectL (pat : List Char) (l : List Char) : Option (List Char) :=
  if leadsWith pat l then some (l.drop pat.length) else none

/-- One-or-more whitespace characters, returning the remainder. -/
def ws1 (l : List Char) : Option (List Char) :=
  match l with
  | c :: rest => if isPySpace c then some (rest.dropWhile isPySpace) else none
  | [] => none

/-- One-or-more digits, returning (value, remainder). -/
def digits1 (l : List Char) : Option (Nat × List Char) :=
  let d := l.takeWhile isPyDigit
  if d = [] then none else some (digitsToNat d, l.drop d.length)

/-- `re.match(r'\s+YEAS: (\d+)\s+NAYS: (\d+)\s+NOT VOTING: (\d+)', line)`. -/
def parseTally (s : String) : Option (Nat × Nat × Nat) := do
  let l ← ws1 s.toList
  let l ← expectL "YEAS: ".toList l
  let (y, l) ← digits1 l
  let l ← ws1 l
  let l ← expectL "NAYS: ".toList l
  let (n, l) ← digits1 l
  let l ← ws1 l
  let l ← expectL "NOT VOTING: ".toList l
  let (o, _) ← digits1 l
  pure (y, n, o)

/-- `re.search(r'EXCUSED: (\d+)', line)`: value of the leftmost match. -/
def excusedSearch : List Char → Option Nat
  | [] => none
  | c :: rest =>
    match expectL "EXCUSED: ".toList (c :: rest) with
    | some l =>
      match digits1 l with
      | some (n, _) => some n
      | none => excusedSearch rest
    | none => excusedSearch rest

/-- `EXCUSED` count if present, else 0 (the source adds it into
`other_count` only when the search matches). -/
def excusedCount (s : String) : Nat := (excusedSearch s.toList).getD 0

/-- `re.match(r'(YEAS|NAYS|NOT VOTING|PAIRED|EXCUSED):\s+(\d+)\s*$', line)`
on an already-rstripped line, mapped through the category dict. -/
def categoryMatch (s : String) : Option VT :=
  let try1 : String → Option (List Char) := fun w => do
    let l ← expectL (w ++ ":").toList s.toList
    let l ← ws1 l
    let (_, l) ← digits1 l
    if l = [] then some l else none
  if (try1 "YEAS").isSome then some .yes
  else if (try1 "NAYS").isSome then some .no
  else if (try1 "NOT VOTING").isSome then some .other
  else if (try1 "PAIRED").isSome then some .paired
  else if (try1 "EXCUSED").isSome then some .other
  else none

/-- `re.match(r'([^\(]+)\((YEA|NAY)\)', line).groups()`: the (stripped)
text before the first `(`, and which of `YEA`/`NAY` follows it;
`none` models the `AttributeError` from `.groups()` on a failed match. -/
def pairedMatch (s : String) : Option (String × Bool) :=
  let l := s.toList
  let pre := l.takeWhile (· ≠ '(')
  if pre = [] then none
  else
    match l.drop pre.length with
    | '(' :: rest =>
      if leadsWith "YEA)".toList rest then some (String.mk (pyStripL pre), true)
      else if leadsWith "NAY)".toList rest then some (String.mk (pyStripL pre), false)
      else none
    | _ => none

/-- The `paired` branch: the line is split on three spaces, but each
nonempty fragment is matched against the whole `line` (the source passes
`line`, not `part`, to `re.match`). -/
def pairedLine (line : String) (st : VoteState) : Except SErr VoteState :=
  (pySplitSub line "   ").foldlM
    (fun st part =>
      if pyStrip part = "" then .ok st
      else
        match pairedMatch line with
        | none => .error .attributeError
        | some (name, true) => .ok { st with yesv := st.yesv ++ [name] }
        | some (name, false) => .ok { st with nov := st.nov ++ [name] })
    st

def addName (vt : VT) (name : String) (st : VoteState) : VoteState :=
  match vt with
  | .yes => { st with yesv := st.yesv ++ [name] }
  | .no => { st with nov := st.nov ++ [name] }
  | .other => { st with otherv := st.otherv ++ [name] }
  | .paired => { st with pairedv := st.pairedv ++ [name] }

/-- The plain-names branch: nonempty stripped fragments are appended to the
current category's list. -/
def namesLine (line : String) (vt : VT) (st : VoteState) : VoteState :=
  (pySplitSub line "   ").foldl
    (fun st part =>
      let name := pyStrip part
      if name = "" then st else addName vt name st)
    st

/-- Python list indexing with negative wrap-around (`lines[idx - 2]`). -/
def pyIndexList (l : List String) (i : Int) : Except SErr String :=
  let j := if i < 0 then i + l.length else i
  if h : 0 ≤ j ∧ j.toNat < l.length then .ok (l.get ⟨j.toNat, h.2⟩)
  else .error .indexError

/-- One iteration of the `for idx, line in enumerate(lines)` loop. -/
def voteStep (lines : List String) (idx : Nat) (st : VoteState) :
    Except SErr VoteState :=
  match lines.get? idx with
  | none => .ok st
  | some raw =>
    let line := pyRstrip raw
    match dateMatch line with
    | some d => if dateValid d then .ok { st with date := some d } else .error .valueError
    | none =>
      match parseTally line with
      | some (yc, nc, oc) =>
        match pyIndexList lines ((idx : Int) - 2) with
        | .error e => .error e
        | .ok mRaw =>
          .ok { st with
            motion := some (pyStrip mRaw),
            counts := some (yc, nc, oc + excusedCount line),
            passed := some (pyEndsWith line "ADOPTED" || pyEndsWith line "PASSED") }
      | none =>
        match categoryMatch line with
        | some vt => .ok { st with vtype := some vt }
        | none =>
          match st.vtype with
          | some .paired => pairedLine line st
          | some vt => .ok (namesLine line vt st)
          | none => .ok st

/-- The structured vote record (`Vote(...)` plus the member lists). -/
structure VoteTally where
  chamber : String
  date : Nat × Nat × Nat
  motion : String
  passed : Bool
  yesCount : Nat
  noCount : Nat
  otherCount : Nat
  yesMembers : List String
  noMembers : List String
  otherMembers : List String
deriving Repr

instance : DecidableEq VoteTally := fun a b =>
  decidable_of_iff (a.chamber = b.chamber ∧ a.date = b.date ∧ a.motion = b.motion ∧
    a.passed = b.passed ∧ a.yesCount = b.yesCount ∧ a.noCount = b.noCount ∧
    a.otherCount = b.otherCount ∧ a.yesMembers = b.yesMembers ∧
    a.noMembers = b.noMembers ∧ a.otherMembers = b.otherMembers)
    (by cases a; cases b; simp)

/-- Building the `Vote` and the three `assert` statements: a still-unbound
local raises `NameError`; a count / member-list length mismatch raises
`AssertionError`. -/
def finalizeVote (st : VoteState) : Except SErr VoteTally :=
  match st.date, st.motion, st.counts, st.passed with
  | some d, some m, some (yc, nc, oc), some p =>
    if st.yesv.length = yc then
      if st.nov.length = nc then
        if st.otherv.length = oc then
          .ok ⟨"lower", d, m, p, yc, nc, oc, st.yesv, st.nov, st.otherv⟩
        else .error .assertionError
      else .error .assertionError
    else .error .assertionError
  | _, _, _, _ => .error .nameError

/-- The whole of `scrape_vote` after text extraction: iterate the state
machine over the lines, then build and check the vote. -/
def parseVote (lines : List String) : Except SErr VoteTally :=
  match (List.range lines.length).foldlM (fun st idx => voteStep lines idx st)
      ({} : VoteState) with
  | .error e => .error e
  | .ok st => finalizeVote st

/-! ## The legacy index builder (`_get_version_filenames`) -/

/-- What reading the per-chamber cache file can produce: no file
(`IOError`, caught), a file whose JSON parses to an index, or a corrupt
file (`json.load` raises, uncaught). -/
inductive CacheFile where
  | valid (m : Index)
  | corrupt

/-- `os.path.splitext` (without the leading-dots refinement, which no
`.wpd` filename in this data exercises): split at the last dot after the
last slash. -/
def splitext (s : String) : String × String :=
  let r := s.toList.reverse
  let ext := r.takeWhile (fun c => c ≠ '.' && c ≠ '/')
  match r.drop ext.length with
  | '.' :: rest => (String.mk rest.reverse, String.mk ('.' :: ext.reverse).reverse)
  | _ => (s, "")

/-- `re.compile(r'\.wpd$', re.I).search`: case-insensitive `.wpd` suffix. -/
def matchwpd (s : String) : Bool := pyEndsWith (pyLower s) ".wpd"

/-- `re.split(r'\s+', x, 3)[-1]`: everything after the first three
whitespace runs (the final field of a directory-listing line). -/
def dropWsFields : Nat → List Char → List Char
  | 0, l => l
  | k + 1, l =>
    let pre := l.takeWhile (fun c => !isPySpace c)
    match l.drop pre.length with
    | [] => l
    | _ :: _ =>
      dropWsFields k ((l.drop pre.length).dropWhile isPySpace)

def lastWsField (s : String) : String := String.mk (dropWsFields 3 s.toList)

/-- `' '.join(x.split()[3:])`: the directory name from a listing line. -/
def dirName (s : String) : String :=
  String.intercalate " " ((pySplitWs s).drop 3)

/-- Append an entry to the `defaultdict(list)`. -/
def indexAppend (idx : Index) (k : String) (v : String × String) : Index :=
  match (idx : List (String × List (String × String))) with
  | [] => [(k, [v])]
  | (k2, vs) :: rest =>
    if k2 = k then (k2, vs ++ [v]) :: rest
    else (k2, vs) :: indexAppend rest k v

/-- Process the `.wpd` filenames of one dated sub-folder. -/
def addDirFiles (d : String) : List String → Index → Except SErr Index
  | [], idx => .ok idx
  | fn :: rest, idx =>
    let stem := (splitext fn).1
    match pySplitSub stem " " with
    | [_] => .error .valueError
    | [] => .error .valueError
    | billId :: _ :: _ =>
      addDirFiles d rest (indexAppend idx (pyLower billId) (d, stem))

/-- Python `str.splitlines()` for newline-separated listing text. -/
def pySplitlines (s : String) : List String :=
  let parts := (splitChar '\n' s.toList).map String.mk
  if parts.getLast? = some "" then parts.dropLast else parts

/-- The traversal of the FTP listing: one fetch for the session folder,
one per dated sub-folder.  `fetch` stands for `self.urlopen(...).decode`. -/
def rebuildIndex (fetch : String → String) (session : String)
    (chamber : Chamber) : Except SErr Index := do
  let chamberName := match chamber with | .upper => "senate" | .lower => "House"
  let ftpUrl := "ftp://www.legis.state.wv.us/publicdocs/" ++ session ++ "/RS/" ++
    chamberName ++ "/"
  let dirs := (pySplitlines (fetch ftpUrl)).map dirName
  dirs.foldlM
    (fun idx d => do
      let url := pyReplace (ftpUrl ++ d ++ "/") " " "%20"
      let filenames := ((pySplitlines (fetch url)).map lastWsField).filter matchwpd
      addDirFiles d filenames idx)
    ([] : Index)

/-- `_get_version_filenames`: a readable cache file short-circuits the
rebuild (`return` inside the `else` clause); a missing file (`IOError`) is
caught and the index is rebuilt; a corrupt file makes `json.load` raise,
which nothing catches. -/
def getVersionFilenames (cacheRead : Chamber → Option CacheFile)
    (fetch : String → String) (session : String) (chamber : Chamber) :
    Except SErr Index :=
  match cacheRead chamber with
  | some (.valid m) => .ok m
  | some .corrupt => .error .jsonDecodeError
  | none => rebuildIndex fetch session chamber

/-! ## URL renderings for the canonical-key property

To state "two URL strings that differ only in case, percent-encoding of the
path, or query-pair order" we render URLs from their parts: an abstract
path (a character list) with a per-character encoding choice, and a query
pair list in a chosen order.  Case variation is captured by comparing URLs
through `lowerL`. -/

/-- Render a path: each character is emitted literally or as `%hh`
(lowercase hex). -/
def renderPathE : List (Char × Bool) → List Char
  | [] => []
  | (c, false) :: r => c :: renderPathE r
  | (c, true) :: r =>
    '%' :: hexDigitLower (c.toNat / 16) :: hexDigitLower (c.toNat % 16) :: renderPathE r

/-- A sound encoding choice: literal characters must not collide with URL
delimiters or the `+`/`%` decoding (a literal `?`, `#` or `;` would denote
query, fragment or parameters rather than a path character, and `unquote_plus`
gives `+` and `%` their decoded meanings); encoded characters are bytes. -/
def okPathEnc (pe : List (Char × Bool)) : Prop :=
  ∀ p ∈ pe, (p.2 = false → p.1 ∉ (['%', '+', '?', '#', ';'] : List Char)) ∧
    (p.2 = true → p.1.toNat < 256)

/-- Render a query pair list as `k1=v1&k2=v2&...`. -/
def renderQuery : List (List Char × List Char) → List Char
  | [] => []
  | [kv] => kv.1 ++ '=' :: kv.2
  | kv :: rest => kv.1 ++ '=' :: kv.2 ++ '&' :: renderQuery rest

/-- Query pairs that survive `parse_qsl` unchanged: nonempty values, and no
character with a separator or decoding meaning. -/
def okQP (q : List (List Char × List Char)) : Prop :=
  ∀ kv ∈ q, kv.2 ≠ [] ∧
    ∀ c ∈ kv.1 ++ kv.2, c ∉ (['&', ';', '=', '%', '+', '#', '?'] : List Char)

instance (pe : List (Char × Bool)) : Decidable (okPathEnc pe) :=
  inferInstanceAs (Decidable (∀ p ∈ pe,
    (p.2 = false → p.1 ∉ (['%', '+', '?', '#', ';'] : List Char)) ∧
    (p.2 = true → p.1.toNat < 256)))

instance (q : List (List Char × List Char)) : Decidable (okQP q) :=
  inferInstanceAs (Decidable (∀ kv ∈ q, kv.2 ≠ [] ∧
    ∀ c ∈ kv.1 ++ kv.2, c ∉ (['&', ';', '=', '%', '+', '#', '?'] : List Char)))

/-- Assemble `scheme://host/path[?query]`. -/
def mkUrlL (s host : List Char) (pe : List (Char × Bool))
    (q : List (List Char × List Char)) : List Char :=
  s ++ ':' :: '/' :: '/' :: (host ++ '/' ::
    (renderPathE pe ++ (if q = [] then [] else '?' :: renderQuery q)))

def mkUrl (s host : String) (pe : List (Char × Bool))
    (q : List (List Char × List Char)) : String :=
  String.mk (mkUrlL s.toList host.toList pe q)

/-! ### Splitting and decoding lemmas -/

theorem splitFirstOpt_append {c : Char} {a : List Char} (b : List Char)
    (ha : c ∉ a) : splitFirstOpt (a ++ c :: b) c = some (a, b) := by
  induction a with
  | nil => simp [splitFirstOpt]
  | cons x r ih =>
    have hx : x ≠ c := by rintro rfl; exact ha (List.mem_cons_self x r)
    have : c ∉ r := fun hm => ha (List.mem_cons_of_mem x hm)
    simp [splitFirstOpt, hx, ih this]

theorem takeWhile_app {p : Char → Bool} {h : List Char} {x : Char} (l : List Char)
    (hh : ∀ c ∈ h, p c = true) (hx : p x = false) :
    (h ++ x :: l).takeWhile p = h ∧ (h ++ x :: l).dropWhile p = x :: l := by
  induction h with
  | nil => simp [List.takeWhile, List.dropWhile, hx]
  | cons y r ih =>
    have hy : p y = true := hh y (List.mem_cons_self y r)
    have hr : ∀ c ∈ r, p c = true := fun c hc => hh c (List.mem_cons_of_mem y hc)
    obtain ⟨h1, h2⟩ := ih hr
    constructor
    · simpa [List.takeWhile, hy] using h1
    · simpa [List.dropWhile, hy] using h2

def hexChars : List Char := "0123456789abcdef".toList

theorem hexDigitLower_mem {k : Nat} (hk : k < 16) : hexDigitLower k ∈ hexChars := by
  interval_cases k <;> decide

theorem hexVal_hexDigitLower {k : Nat} (hk : k < 16) :
    hexVal (hexDigitLower k) = some k := by
  interval_cases k <;> decide

theorem pyUnquoteL_cons_ne {c : Char} (l : List Char) (hc : c ≠ '%') :
    pyUnquoteL (c :: l) = c :: pyUnquoteL l := by
  match l with
  | [] => simp [pyUnquoteL, hc]
  | [a] => simp [pyUnquoteL, hc]
  | a :: b :: rest =>
    rw [pyUnquoteL]
    simp [hc]

theorem pyUnquoteL_pct {a b : Char} {x y : Nat} (rest : List Char)
    (ha : hexVal a = some x) (hb : hexVal b = some y) :
    pyUnquoteL ('%' :: a :: b :: rest) = Char.ofNat (16 * x + y) :: pyUnquoteL rest := by
  rw [pyUnquoteL, ha, hb]

/-- A character-wise map is the identity on lists avoiding the changed
character. -/
theorem mapPlus_eq_self {l : List Char} (h : '+' ∉ l) :
    (l.map fun c => if c = '+' then ' ' else c) = l := by
  induction l with
  | nil => simp
  | cons c r ih =>
    have hc : c ≠ '+' := by rintro rfl; exact h (List.mem_cons_self _ _)
    have hr : '+' ∉ r := fun hm => h (List.mem_cons_of_mem _ hm)
    simp [hc, ih hr]

theorem pyUnquoteL_eq_self {l : List Char} (h : '%' ∉ l) : pyUnquoteL l = l := by
  induction l with
  | nil => simp [pyUnquoteL]
  | cons c r ih =>
    have hc : c ≠ '%' := by rintro rfl; exact h (List.mem_cons_self _ _)
    have hr : '%' ∉ r := fun hm => h (List.mem_cons_of_mem _ hm)
    rw [pyUnquoteL_cons_ne r hc, ih hr]

theorem renderPathE_not_mem {pe : List (Char × Bool)} (hpe : okPathEnc pe)
    {x : Char} (hpct : x ≠ '%') (hhex : x ∉ hexChars)
    (hlit : ∀ p ∈ pe, p.2 = false → x ≠ p.1) : x ∉ renderPathE pe := by
  induction pe with
  | nil => simp [renderPathE]
  | cons p r ih =>
    have hr : okPathEnc r := fun a ha => hpe a (List.mem_cons_of_mem p ha)
    have hlr : ∀ a ∈ r, a.2 = false → x ≠ a.1 :=
      fun a ha => hlit a (List.mem_cons_of_mem p ha)
    obtain ⟨c, b⟩ := p
    cases b with
    | false =>
      have hcl : x ≠ c := hlit (c, false) (List.mem_cons_self _ _) rfl
      rw [renderPathE]
      simp [hcl, ih hr hlr]
    | true =>
      have hlt : c.toNat < 256 := (hpe (c, true) (List.mem_cons_self _ _)).2 rfl
      have h1 : x ≠ hexDigitLower (c.toNat / 16) := by
        intro he; exact hhex (he ▸ hexDigitLower_mem (by omega))
      have h2 : x ≠ hexDigitLower (c.toNat % 16) := by
        intro he; exact hhex (he ▸ hexDigitLower_mem (Nat.mod_lt _ (by omega)))
      rw [renderPathE]
      simp [hpct, h1, h2, ih hr hlr]

/-- The delimiters `?`, `#`, `;`, `+` never occur in a soundly encoded
path rendering. -/
theorem renderPathE_no_delim {pe : List (Char × Bool)} (hpe : okPathEnc pe)
    {x : Char} (hxl : x ∈ (['?', '#', ';', '+'] : List Char)) :
    x ∉ renderPathE pe := by
  refine renderPathE_not_mem hpe ?_ ?_ ?_
  · fin_cases hxl <;> decide
  · fin_cases hxl <;> decide
  · intro p hp hpf heq
    have hb := (hpe p hp).1 hpf
    apply hb
    rw [← heq]
    fin_cases hxl <;> decide

theorem renderQuery_not_mem {q : List (List Char × List Char)}
    {x : Char} (hamp : x ≠ '&') (heqc : x ≠ '=')
    (hkv : ∀ kv ∈ q, x ∉ kv.1 ∧ x ∉ kv.2) : x ∉ renderQuery q := by
  induction q with
  | nil => simp [renderQuery]
  | cons kv rest ih =>
    have hk := hkv kv (List.mem_cons_self _ _)
    have hkr : ∀ a ∈ rest, x ∉ a.1 ∧ x ∉ a.2 :=
      fun a ha => hkv a (List.mem_cons_of_mem _ ha)
    cases rest with
    | nil =>
      rw [renderQuery]
      simp [hk.1, hk.2, heqc]
    | cons kv2 r2 =>
      rw [renderQuery]
      · simp [hk.1, hk.2, heqc, hamp, ih hkr]
      · simp

theorem renderQuery_no_delim {q : List (List Char × List Char)} (hq : okQP q)
    {x : Char} (hxl : x ∈ (['#', '?'] : List Char)) : x ∉ renderQuery q := by
  refine renderQuery_not_mem ?_ ?_ ?_
  · fin_cases hxl <;> decide
  · fin_cases hxl <;> decide
  · intro kv hm
    have hb := (hq kv hm).2
    constructor <;> intro hmm
    · exact hb x (List.mem_append.2 (Or.inl hmm)) (by fin_cases hxl <;> decide)
    · exact hb x (List.mem_append.2 (Or.inr hmm)) (by fin_cases hxl <;> decide)

/-- Decoding a rendered path recovers the abstract path, whatever the
encoding choices were. -/
theorem pyUnquotePlusL_renderPathE {pe : List (Char × Bool)} (hpe : okPathEnc pe) :
    pyUnquotePlusL (renderPathE pe) = pe.map Prod.fst := by
  have hplus : '+' ∉ renderPathE pe := renderPathE_no_delim hpe (by decide)
  rw [pyUnquotePlusL, mapPlus_eq_self hplus]
  induction pe with
  | nil => simp [renderPathE, pyUnquoteL]
  | cons p r ih =>
    have hr : okPathEnc r := fun a ha => hpe a (List.mem_cons_of_mem p ha)
    have hplusr : '+' ∉ renderPathE r := renderPathE_no_delim hr (by decide)
    obtain ⟨c, b⟩ := p
    cases b with
    | false =>
      have hc : c ≠ '%' :=
        fun he => ((hpe (c, false) (List.mem_cons_self _ _)).1 rfl) (by rw [he]; decide)
      rw [renderPathE, pyUnquoteL_cons_ne _ hc, ih hr hplusr]
      simp
    | true =>
      have hlt : c.toNat < 256 := (hpe (c, true) (List.mem_cons_self _ _)).2 rfl
      rw [renderPathE,
        pyUnquoteL_pct _ (hexVal_hexDigitLower (by omega))
          (hexVal_hexDigitLower (Nat.mod_lt _ (by omega))),
        ih hr hplusr]
      have : 16 * (c.toNat / 16) + c.toNat % 16 = c.toNat := by omega
      simp [this, Char.ofNat_toNat]

/-- `splitChar` on a character that does not occur. -/
theorem splitChar_of_not_mem {c : Char} {l : List Char} (h : c ∉ l) :
    splitChar c l = [l] := by
  induction l with
  | nil => rfl
  | cons x r ih =>
    have hx : x ≠ c := by rintro rfl; exact h (List.mem_cons_self _ _)
    have hr : c ∉ r := fun hm => h (List.mem_cons_of_mem _ hm)
    rw [splitChar, if_neg hx, ih hr]

/-- `splitChar` at the first occurrence of the separator. -/
theorem splitChar_append {c : Char} {a : List Char} (b : List Char) (ha : c ∉ a) :
    splitChar c (a ++ c :: b) = a :: splitChar c b := by
  induction a with
  | nil =>
    rw [List.nil_append, splitChar, if_pos rfl]
  | cons x r ih =>
    have hx : x ≠ c := by rintro rfl; exact ha (List.mem_cons_self _ _)
    have hr : c ∉ r := fun hm => ha (List.mem_cons_of_mem _ hm)
    rw [List.cons_append, splitChar, if_neg hx, ih hr]

/-- `parse_qsl` recovers a soundly rendered query pair list. -/
theorem parseQslL_renderQuery {q : List (List Char × List Char)} (hq : okQP q) :
    parseQslL (renderQuery q) = q := by
  induction q with
  | nil => decide
  | cons kv rest ih =>
    have hk := hq kv (List.mem_cons_self _ _)
    have hrest : okQP rest := fun a ha => hq a (List.mem_cons_of_mem _ ha)
    have hamp1 : '&' ∉ kv.1 := fun hm => hk.2 '&' (List.mem_append.2 (Or.inl hm)) (by decide)
    have hamp2 : '&' ∉ kv.2 := fun hm => hk.2 '&' (List.mem_append.2 (Or.inr hm)) (by decide)
    have hsemi1 : ';' ∉ kv.1 := fun hm => hk.2 ';' (List.mem_append.2 (Or.inl hm)) (by decide)
    have hsemi2 : ';' ∉ kv.2 := fun hm => hk.2 ';' (List.mem_append.2 (Or.inr hm)) (by decide)
    have heq1 : '=' ∉ kv.1 := fun hm => hk.2 '=' (List.mem_append.2 (Or.inl hm)) (by decide)
    have hpct1 : '%' ∉ kv.1 := fun hm => hk.2 '%' (List.mem_append.2 (Or.inl hm)) (by decide)
    have hpct2 : '%' ∉ kv.2 := fun hm => hk.2 '%' (List.mem_append.2 (Or.inr hm)) (by decide)
    have hpl1 : '+' ∉ kv.1 := fun hm => hk.2 '+' (List.mem_append.2 (Or.inl hm)) (by decide)
    have hpl2 : '+' ∉ kv.2 := fun hm => hk.2 '+' (List.mem_append.2 (Or.inr hm)) (by decide)
    have hpiece : ∀ x ∈ kv.1 ++ '=' :: kv.2, x ≠ '&' ∧ x ≠ ';' := by
      intro x hx
      rcases List.mem_append.1 hx with h1 | h1
      · constructor <;> rintro rfl
        · exact hamp1 h1
        · exact hsemi1 h1
      rcases List.mem_cons.1 h1 with h2 | h2
      · subst h2; constructor <;> decide
      · constructor <;> rintro rfl
        · exact hamp2 h2
        · exact hsemi2 h2
    have hu1 : pyUnquotePlusL kv.1 = kv.1 := by
      rw [pyUnquotePlusL, mapPlus_eq_self hpl1, pyUnquoteL_eq_self hpct1]
    have hu2 : pyUnquotePlusL kv.2 = kv.2 := by
      rw [pyUnquotePlusL, mapPlus_eq_self hpl2, pyUnquoteL_eq_self hpct2]
    -- evaluating one piece of the query string
    have hone : (match splitFirstOpt (kv.1 ++ '=' :: kv.2) '=' with
        | none => (none : Option (List Char × List Char))
        | some (n, v) =>
          if v = [] then none
          else some (pyUnquotePlusL n, pyUnquotePlusL v)) = some kv := by
      rw [splitFirstOpt_append _ heq1]
      simp [hk.1, hu1, hu2]
    cases rest with
    | nil =>
      rw [renderQuery, parseQslL]
      rw [splitChar_of_not_mem (fun hm => (hpiece '&' hm).1 rfl)]
      simp only [List.flatMap_cons, List.flatMap_nil, List.append_nil]
      rw [splitChar_of_not_mem (fun hm => (hpiece ';' hm).2 rfl)]
      simp only [List.filterMap_cons, List.filterMap_nil, hone]
    | cons kv2 r2 =>
      have hrq : renderQuery (kv :: kv2 :: r2) =
          kv.1 ++ '=' :: (kv.2 ++ '&' :: renderQuery (kv2 :: r2)) := by
        rw [renderQuery]
        · simp
        · simp
      have hsplit : splitChar '&' (kv.1 ++ '=' :: (kv.2 ++ '&' :: renderQuery (kv2 :: r2))) =
          (kv.1 ++ '=' :: kv.2) :: splitChar '&' (renderQuery (kv2 :: r2)) := by
        have h9 : kv.1 ++ '=' :: (kv.2 ++ '&' :: renderQuery (kv2 :: r2)) =
            (kv.1 ++ '=' :: kv.2) ++ '&' :: renderQuery (kv2 :: r2) := by simp
        rw [h9, splitChar_append _ (fun hm => (hpiece '&' hm).1 rfl)]
      have ih2 := ih hrest
      rw [parseQslL] at ih2
      rw [hrq, parseQslL, hsplit]
      simp only [List.flatMap_cons]
      rw [splitChar_of_not_mem (fun hm => (hpiece ';' hm).2 rfl)]
      simp only [List.singleton_append, List.filterMap_cons, hone]
      rw [ih2]

/-! ### Evaluating `urlsplit` on an assembled URL -/

theorem splitScheme_eq {s rest : List Char} (hs1 : s ≠ [])
    (hs2 : ∀ c ∈ s, isSchemeChar c = true)
    (hrest : ¬(rest ≠ [] ∧ rest.all isPyDigit = true)) :
    splitScheme (s ++ ':' :: rest) = (lowerL s, rest) := by
  have hcol : ':' ∉ s := fun hm => absurd (hs2 ':' hm) (by decide)
  rw [splitScheme, splitFirstOpt_append _ hcol]
  show (if s ≠ [] ∧ s.all isSchemeChar = true ∧ ¬(rest ≠ [] ∧ rest.all isPyDigit = true)
    then (lowerL s, rest) else ([], s ++ ':' :: rest)) = (lowerL s, rest)
  rw [if_pos ⟨hs1, List.all_eq_true.2 hs2, hrest⟩]

theorem splitNetloc_eq {host tail : List Char}
    (hh : ∀ c ∈ host, netDelim c = false) :
    splitNetloc ('/' :: '/' :: (host ++ '/' :: tail)) = (host, '/' :: tail) := by
  have hth := @takeWhile_app (fun c => !netDelim c) host '/' tail
    (fun c hc => by simp [hh c hc]) (by decide)
  rw [splitNetloc]
  rw [hth.1, hth.2]

theorem splitFragmentPart_no_hash (scheme : List Char) {u : List Char}
    (h : '#' ∉ u) : splitFragmentPart scheme u = (u, []) := by
  rw [splitFragmentPart, if_neg (fun hc => h hc.2)]

theorem splitQueryPart_no_q (scheme : List Char) {u : List Char}
    (h : '?' ∉ u) : splitQueryPart scheme u = (u, []) := by
  rw [splitQueryPart, if_neg (fun hc => h hc.2)]

theorem splitQueryPart_eq {scheme a : List Char} (b : List Char)
    (ha : '?' ∉ a) (hs : scheme ∈ usesQuery) :
    splitQueryPart scheme (a ++ '?' :: b) = (a, b) := by
  rw [splitQueryPart, if_pos ⟨hs, List.mem_append.2 (Or.inr (List.mem_cons_self _ _))⟩,
    splitFirstOpt_append _ ha]

theorem splitParamsL_no_semi {path : List Char} (h : ';' ∉ path) :
    splitParamsL path = (path, []) := by
  rw [splitParamsL, if_neg h]

/-- `urlsplit` of an assembled URL recovers its parts. -/
theorem pyUrlsplitL_mkUrl {s host : List Char} {pe : List (Char × Bool)}
    {q : List (List Char × List Char)}
    (hs1 : s ≠ []) (hs2 : ∀ c ∈ s, isSchemeChar c = true)
    (hh : ∀ c ∈ host, netDelim c = false)
    (hpe : okPathEnc pe) (hq : okQP q) (husq : lowerL s ∈ usesQuery) :
    pyUrlsplitL (mkUrlL s host pe q) =
      ⟨lowerL s, host, '/' :: renderPathE pe,
        (if q = [] then [] else renderQuery q), []⟩ := by
  have hph : '#' ∉ renderPathE pe := renderPathE_no_delim hpe (by decide)
  have hpq : '?' ∉ renderPathE pe := renderPathE_no_delim hpe (by decide)
  have hQh : '#' ∉ (if q = [] then [] else '?' :: renderQuery q) := by
    by_cases hqe : q = []
    · simp [hqe]
    · rw [if_neg hqe]
      intro hm
      rcases List.mem_cons.1 hm with h1 | h1
      · exact absurd h1 (by decide)
      · exact renderQuery_no_delim hq (by decide) h1
  have hrest : ¬(('/' :: '/' :: (host ++ '/' ::
      (renderPathE pe ++ (if q = [] then [] else '?' :: renderQuery q))) : List Char) ≠ [] ∧
      ('/' :: '/' :: (host ++ '/' ::
      (renderPathE pe ++ (if q = [] then [] else '?' :: renderQuery q)))).all isPyDigit = true) := by
    rintro ⟨-, hall⟩
    have := List.all_eq_true.1 hall '/' (List.mem_cons_self _ _)
    exact absurd this (by decide)
  have htailh : '#' ∉ ('/' :: (renderPathE pe ++
      (if q = [] then [] else '?' :: renderQuery q))) := by
    intro hm
    rcases List.mem_cons.1 hm with h1 | h1
    · exact absurd h1 (by decide)
    rcases List.mem_append.1 h1 with h2 | h2
    · exact hph h2
    · exact hQh h2
  rw [pyUrlsplitL]
  rw [mkUrlL, splitScheme_eq hs1 hs2 hrest, splitNetloc_eq hh,
    splitFragmentPart_no_hash _ htailh]
  by_cases hqe : q = []
  · rw [if_pos hqe]
    have hnq : '?' ∉ ('/' :: (renderPathE pe ++ ([] : List Char))) := by
      intro hm
      rcases List.mem_cons.1 hm with h1 | h1
      · exact absurd h1 (by decide)
      rcases List.mem_append.1 h1 with h2 | h2
      · exact hpq h2
      · simp at h2
    rw [splitQueryPart_no_q _ hnq, if_pos hqe]
    simp
  · rw [if_neg hqe]
    have hshape : ('/' :: (renderPathE pe ++ '?' :: renderQuery q) : List Char) =
        ('/' :: renderPathE pe) ++ '?' :: renderQuery q := by simp
    have hnq2 : '?' ∉ ('/' :: renderPathE pe) := by
      intro hm
      rcases List.mem_cons.1 hm with h1 | h1
      · exact absurd h1 (by decide)
      · exact hpq h1
    rw [hshape, splitQueryPart_eq _ hnq2 husq, if_neg hqe]

theorem pyUnquotePlusL_cons {c : Char} (l : List Char) (h1 : c ≠ '+') (h2 : c ≠ '%') :
    pyUnquotePlusL (c :: l) = c :: pyUnquotePlusL l := by
  rw [pyUnquotePlusL, pyUnquotePlusL, List.map_cons, if_neg h1, pyUnquoteL_cons_ne _ h2]

/-- The canonical key of an assembled URL: lowercased scheme, host, the
decoded abstract path, no parameters, the query pairs as a set, no
fragment. -/
theorem mkKey_mkUrl {s host : List Char} {pe : List (Char × Bool)}
    {q : List (List Char × List Char)}
    (hs1 : s ≠ []) (hs2 : ∀ c ∈ s, isSchemeChar c = true)
    (hh : ∀ c ∈ host, netDelim c = false)
    (hpe : okPathEnc pe) (hq : okQP q) (husq : lowerL s ∈ usesQuery) :
    mkKey (mkUrlL s host pe q) =
      ⟨lowerL s, host, '/' :: pe.map Prod.fst, [], q.toFinset, []⟩ := by
  have hsplit := pyUrlsplitL_mkUrl hs1 hs2 hh hpe hq husq
  have hpsemi : ';' ∉ ('/' :: renderPathE pe) := by
    intro hm
    rcases List.mem_cons.1 hm with h1 | h1
    · exact absurd h1 (by decide)
    · exact renderPathE_no_delim hpe (by decide) h1
  have hpath : pyUnquotePlusL ('/' :: renderPathE pe) = '/' :: pe.map Prod.fst := by
    rw [pyUnquotePlusL_cons _ (by decide) (by decide), pyUnquotePlusL_renderPathE hpe]
  rw [mkKey, hsplit]
  simp only
  rw [splitParamsL_no_semi hpsemi]
  simp only
  rw [hpath]
  by_cases hqe : q = []
  · subst hqe
    rfl
  · rw [if_neg hqe, parseQslL_renderQuery hq]

/-! ## Claim C2 -/

/-- C2, counterexample: the claim "URL strings that differ only in
percent-encoding of the path produce equal keys" is false at the pair
`http://h/%41` / `http://h/A`: both render the same scheme, host and
abstract path `A` (with sound encoding choices, differing only in whether
`A` is percent-encoded), yet `_Url` lowercases the whole URL before
parsing, which lowercases the literal `A` but not the encoded `%41`, so the
two keys have paths `/A` and `/a` and are unequal. -/
theorem c2_counterexample_encoded_uppercase :
    okPathEnc [('A', true)] ∧ okPathEnc [('A', false)] ∧
    mkUrl "http" "h" [('A', true)] [] = "http://h/%41" ∧
    mkUrl "http" "h" [('A', false)] [] = "http://h/A" ∧
    canonicalKey "http://h/%41" ≠ canonicalKey "http://h/A" :=
  ⟨by decide, by decide, by decide, by decide, by decide⟩

/-- C2 (amended): for URL strings that, after lowercasing, are renderings
of the same scheme, host and abstract path and of query-pair lists equal as
sets (so: differing in character case anywhere, in the order and
duplication of query pairs, and in percent-encoding of path characters that
survive lowercasing — an uppercase letter written literally in one URL and
percent-encoded in the other is excluded, per the counterexample),
`canonical_key` produces equal keys and equal hashes. -/
theorem c2_canonical_key_equivalence
    (v1 v2 : String) (s host : List Char)
    (pe1 pe2 : List (Char × Bool)) (q1 q2 : List (List Char × List Char))
    (hs1 : s ≠ []) (hs2 : ∀ c ∈ s, isSchemeChar c = true)
    (hh : ∀ c ∈ host, netDelim c = false)
    (hpe1 : okPathEnc pe1) (hpe2 : okPathEnc pe2)
    (hq1 : okQP q1) (hq2 : okQP q2)
    (husq : lowerL s ∈ usesQuery)
    (habs : pe1.map Prod.fst = pe2.map Prod.fst)
    (hqeq : q1.toFinset = q2.toFinset)
    (hv1 : lowerL v1.toList = mkUrlL s host pe1 q1)
    (hv2 : lowerL v2.toList = mkUrlL s host pe2 q2) :
    canonicalKey v1 = canonicalKey v2 ∧
      urlKeyHash (canonicalKey v1) = urlKeyHash (canonicalKey v2) := by
  have h1 : canonicalKey v1 =
      ⟨lowerL s, host, '/' :: pe1.map Prod.fst, [], q1.toFinset, []⟩ := by
    rw [canonicalKey, hv1, mkKey_mkUrl hs1 hs2 hh hpe1 hq1 husq]
  have h2 : canonicalKey v2 =
      ⟨lowerL s, host, '/' :: pe2.map Prod.fst, [], q2.toFinset, []⟩ := by
    rw [canonicalKey, hv2, mkKey_mkUrl hs1 hs2 hh hpe2 hq2 husq]
  have heq : canonicalKey v1 = canonicalKey v2 := by rw [h1, h2, habs, hqeq]
  exact ⟨heq, congrArg urlKeyHash heq⟩

/-- C2, witness: `HTTP://h/%61%2Fb?x=1&y=2` and
`http://h/a%2fb?y=2&x=1&x=1` differ in case, path encoding of a lowercase
character, and query order/duplication, and get equal keys and hashes. -/
theorem c2_canonical_key_equivalence_witness :
    canonicalKey "HTTP://h/%61%2Fb?x=1&y=2" = canonicalKey "http://h/a%2fb?y=2&x=1&x=1" ∧
      urlKeyHash (canonicalKey "HTTP://h/%61%2Fb?x=1&y=2") =
        urlKeyHash (canonicalKey "http://h/a%2fb?y=2&x=1&x=1") :=
  c2_canonical_key_equivalence "HTTP://h/%61%2Fb?x=1&y=2" "http://h/a%2fb?y=2&x=1&x=1"
    "http".toList "h".toList
    [('a', true), ('/', true), ('b', false)] [('a', false), ('/', true), ('b', false)]
    [("x".toList, "1".toList), ("y".toList, "2".toList)]
    [("y".toList, "2".toList), ("x".toList, "1".toList), ("x".toList, "1".toList)]
    (by decide) (by decide) (by decide) (by decide) (by decide) (by decide)
    (by decide) (by decide) (by decide) (by decide) (by decide) (by decide)

/-! ## Claim C5 -/

/-- C5: every `VoteTally` that `parse_vote_text` (`scrape_vote`) returns
satisfies `len(yes_members) == yes_count`, `len(no_members) == no_count`
and `len(other_members) == other_count`; a violation is an
`AssertionError`, never a returned tally. -/
theorem c5_vote_counts_match (lines : List String) (t : VoteTally)
    (h : parseVote lines = .ok t) :
    t.yesMembers.length = t.yesCount ∧ t.noMembers.length = t.noCount ∧
      t.otherMembers.length = t.otherCount := by
  rw [parseVote] at h
  cases hst : (List.range lines.length).foldlM
      (fun st idx => voteStep lines idx st) ({} : VoteState) with
  | error e => rw [hst] at h; exact absurd h (by simp)
  | ok st =>
    rw [hst] at h
    simp only at h
    rw [finalizeVote] at h
    split at h
    · split_ifs at h with h1 h2 h3
      · injection h with h4
        subst h4
        exact ⟨h1, h2, h3⟩
    · exact absurd h (by simp)

def demoVoteLines : List String :=
  ["Some Motion", "", "   YEAS: 2 NAYS: 1 NOT VOTING: 0 PASSED",
   "YEAS: 2", "Adams   Clark", "NAYS: 1", "Baker", "01/15/2011"]

def demoVoteTally : VoteTally :=
  ⟨"lower", (1, 15, 2011), "Some Motion", true, 2, 1, 0,
    ["Adams", "Clark"], ["Baker"], []⟩

/-- C5, witness: a complete vote text parses successfully and the returned
tally's member lists match its counts. -/
theorem c5_vote_counts_match_witness :
    parseVote demoVoteLines = .ok demoVoteTally ∧
      (demoVoteTally.yesMembers.length = demoVoteTally.yesCount ∧
        demoVoteTally.noMembers.length = demoVoteTally.noCount ∧
        demoVoteTally.otherMembers.length = demoVoteTally.otherCount) :=
  ⟨by decide, c5_vote_counts_match demoVoteLines demoVoteTally (by decide)⟩

/-! ## Claim C6 -/

/-- C6: when the parser recognizes a tally-summary line (and the
date-pattern branch did not fire first), the motion is the stripped line
two positions earlier in the input, any `EXCUSED` count is added into the
other count, and `passed` is true iff the line ends with `ADOPTED` or
`PASSED`. -/
theorem c6_tally_line (lines : List String) (idx : Nat) (st : VoteState)
    (l m : String) (y n o : Nat)
    (hl : lines.get? idx = some l)
    (hidx : 2 ≤ idx)
    (hm : lines.get? (idx - 2) = some m)
    (hdate : dateMatch (pyRstrip l) = none)
    (htally : parseTally (pyRstrip l) = some (y, n, o)) :
    voteStep lines idx st = .ok { st with
      motion := some (pyStrip m),
      counts := some (y, n, o + excusedCount (pyRstrip l)),
      passed := some (pyEndsWith (pyRstrip l) "ADOPTED" ||
        pyEndsWith (pyRstrip l) "PASSED") } := by
  have hlen : idx < lines.length := by
    cases hlt : lines.get? idx with
    | none => rw [hlt] at hl; exact absurd hl (by simp)
    | some _ => exact List.get?_eq_some.1 hl |>.1
  have hmlen : idx - 2 < lines.length := by omega
  have hget : lines.get ⟨idx - 2, hmlen⟩ = m := by
    rw [List.get?_eq_get hmlen] at hm
    exact Option.some.inj hm
  have hj : pyIndexList lines ((idx : Int) - 2) = .ok m := by
    rw [pyIndexList]
    have h0 : ¬((idx : Int) - 2 < 0) := by omega
    simp only [if_neg h0]
    have htn : ((idx : Int) - 2).toNat = idx - 2 := by omega
    rw [dif_pos ⟨by omega, by rw [htn]; exact hmlen⟩]
    simp only [htn]
    rw [hget]
  rw [voteStep, hl]
  simp only [hdate, htally, hj]

/-- C6, witness: a concrete tally line at index 2 with an `EXCUSED`
count, ending in `ADOPTED`. -/
theorem c6_tally_line_witness :
    voteStep ["The motion", "",
        "  YEAS: 3 NAYS: 1 NOT VOTING: 2 EXCUSED: 1 ADOPTED"] 2 {} =
      .ok { ({} : VoteState) with
        motion := some (pyStrip "The motion"),
        counts := some (3, 1, 2 + excusedCount
          (pyRstrip "  YEAS: 3 NAYS: 1 NOT VOTING: 2 EXCUSED: 1 ADOPTED")),
        passed := some (pyEndsWith
            (pyRstrip "  YEAS: 3 NAYS: 1 NOT VOTING: 2 EXCUSED: 1 ADOPTED") "ADOPTED" ||
          pyEndsWith
            (pyRstrip "  YEAS: 3 NAYS: 1 NOT VOTING: 2 EXCUSED: 1 ADOPTED") "PASSED") } :=
  c6_tally_line _ 2 {} _ "The motion" 3 1 2 (by decide) (by decide) (by decide)
    (by decide) (by decide)

/-! ## Claim C7 -/

/-- C7: the claim says each fragment of a `paired` line is matched and its
own name routed to yes/no.  The source instead passes `line` (not `part`)
to `re.match`, so every nonempty fragment contributes the FIRST pair's
name: on `Adams (YEA)   Baker (NAY)` the yes-list receives `Adams` twice
and `Baker` is never recorded. -/
theorem c7_paired_line_uses_whole_line :
    voteStep ["Adams (YEA)   Baker (NAY)"] 0 { vtype := some VT.paired } =
      .ok { vtype := some VT.paired, yesv := ["Adams", "Adams"] } := by decide

/-! ## Claim C10 -/

/-- C10, counterexample: the claim says a corrupt cache file is recovered
by rebuilding from source; in fact only the `open` call is inside the
`try/except IOError`, so a present-but-corrupt file makes `json.load`
raise an uncaught error and `_get_version_filenames` fails instead of
rebuilding. -/
theorem c10_counterexample_corrupt_cache :
    getVersionFilenames (fun _ => some CacheFile.corrupt) (fun _ => "") "2011"
      Chamber.upper = .error .jsonDecodeError := by decide

/-- C10 (amended): a present and valid per-chamber cache is loaded and
used without re-traversal (the result is independent of the remote fetch
oracle); a missing cache file (`IOError`) is recovered by rebuilding from
the remote listing; a present-but-corrupt cache file is an uncaught
failure, not recovered. -/
theorem c10_cache_behavior (cacheRead : Chamber → Option CacheFile)
    (fetch : String → String) (session : String) (chamber : Chamber) :
    (∀ m, cacheRead chamber = some (.valid m) →
      ∀ fetch2, getVersionFilenames cacheRead fetch2 session chamber = .ok m) ∧
    (cacheRead chamber = none →
      getVersionFilenames cacheRead fetch session chamber =
        rebuildIndex fetch session chamber) ∧
    (cacheRead chamber = some .corrupt →
      getVersionFilenames cacheRead fetch session chamber =
        .error .jsonDecodeError) := by
  refine ⟨?_, ?_, ?_⟩
  · intro m hm fetch2
    rw [getVersionFilenames, hm]
  · intro hm
    rw [getVersionFilenames, hm]
  · intro hm
    rw [getVersionFilenames, hm]

/-- C10, witness: with a valid cached index the function returns it, under
an arbitrary fetch oracle. -/
theorem c10_cache_behavior_witness :
    getVersionFilenames (fun _ => some (CacheFile.valid [("sb1", [("01-01", "sb1 x")])]))
      (fun _ => "unused") "2011" Chamber.upper = .ok [("sb1", [("01-01", "sb1 x")])] :=
  (c10_cache_behavior (fun _ => some (CacheFile.valid [("sb1", [("01-01", "sb1 x")])]))
    (fun _ => "unused") "2011" Chamber.upper).1 _ rfl _

/-! ## Claim C9 -/

/-- C9: the claim says every legacy-index entry yields a URL of the fixed
remote root joined with the chamber folder, that entry's dated subfolder
and its quoted filename.  The source rebinds `url` inside the loop
(`url = '/'.join([url, ...])`), so the second entry's URL is built on top
of the first entry's complete URL. -/
theorem c9_wpd_url_accumulates :
    scrapeVersionsWpd "2011" Chamber.upper
        [("sb1", [("01-01", "sb1 a"), ("02-02", "sb1 b")])] "SB 1" =
      [⟨"sb1 a",
        "ftp://www.legis.state.wv.us/publicdocs/2011/RS/senate/01-01/sb1%20a.wpd",
        "application/wordperfect"⟩,
       ⟨"sb1 b",
        "ftp://www.legis.state.wv.us/publicdocs/2011/RS/senate/01-01/sb1%20a.wpd/senate/02-02/sb1%20b.wpd",
        "application/wordperfect"⟩] := by decide

/-! ## Claim C8 -/

/-- The guessed-document URL as the spec words it (refinement comparison):
"document filename (spaces replaced by %20, suffixed .htm)" — only the
space-vs-plus replacement differs from `buildGuessUrl`. -/
def buildGuessUrlSpec (session i filename : String) : String :=
  let fn := pyReplace filename " " "%20" ++ ".htm"
  urlunparse "http" "www.legis.state.wv.us" "/Bill_Status/bills_text.cfm" ""
    (urlencode [("billdoc", fn), ("yr", session), ("sesstype", "RS"), ("i", i)]) ""

/-- C8, counterexample: for a filename containing a space (`a b`), the
source's `filename.replace('+', '%20')` leaves the space alone, and
`urlencode` then encodes it as `+`, so the billdoc parameter is
`a+b.htm`, not the spec's space-to-%20 replacement. -/
theorem c8_counterexample_space_filename :
    scrapeVersionsGuessUrl "2011" [("sb1", [("01-01", "a b")])] "SB 1" =
      .ok [("a b", buildGuessUrl "2011" "1" "a b")] ∧
    buildGuessUrl "2011" "1" "a b" =
      "http://www.legis.state.wv.us/Bill_Status/bills_text.cfm?billdoc=a+b.htm&yr=2011&sesstype=RS&i=1" ∧
    buildGuessUrl "2011" "1" "a b" ≠ buildGuessUrlSpec "2011" "1" "a b" :=
  ⟨by decide, by decide, by decide⟩

theorem guessPairs_eq_map (session i : String) (l : List (String × String)) :
    guessPairs session i l = l.map (fun e => (e.2, buildGuessUrl session i e.2)) := by
  induction l with
  | nil => rfl
  | cons e rest ih =>
    obtain ⟨folder, fn⟩ := e
    rw [guessPairs, ih]
    rfl

/-- C8 (amended): for each (folder, filename) entry of the legacy index
for the normalized bill id, the guessed-URL adapter yields the pair of the
filename and the fixed document-retrieval endpoint whose form-encoded
query parameters are the filename with PLUS SIGNS (not spaces) replaced by
`%20` and suffixed `.htm` (billdoc), the year, the session type `RS`, and
the bill's numeric suffix. -/
theorem c8_guess_url_shape (session : String) (idx : Index) (billId bt i : String)
    (hsplit : pySplitWs billId = [bt, i]) :
    scrapeVersionsGuessUrl session idx billId =
      .ok ((indexLookup idx (pyLower (pyReplace billId " " ""))).map
        (fun e => (e.2, buildGuessUrl session i e.2))) := by
  rw [scrapeVersionsGuessUrl, hsplit]
  simp only [guessPairs_eq_map]

/-- C8, witness: the amended shape at a concrete bill and index. -/
theorem c8_guess_url_shape_witness :
    scrapeVersionsGuessUrl "2011" [("sb1", [("01-01", "sb1 x")])] "SB 1" =
      .ok ((indexLookup [("sb1", [("01-01", "sb1 x")])]
          (pyLower (pyReplace "SB 1" " " ""))).map
        (fun e => (e.2, buildGuessUrl "2011" "1" e.2))) :=
  c8_guess_url_shape "2011" [("sb1", [("01-01", "sb1 x")])] "SB 1" "SB" "1" (by decide)

/-! ## Claims C3 and C4: the guessed-URL confirmation path -/

def demoIdx1 : Index := [("sb1", [("01-01", "sb1 x")])]

/-- C3: the absence-marker check never skips.  The source's loop
`for s in not_available: if s not in html: continue` has no effect, so a
guessed candidate whose fetched page contains "is not available" is NOT
excluded: with the `guess_count` attribute set, its html descriptor is in
the returned list; with the attribute unset (its actual state in this
program) the call instead raises `AttributeError` before returning any
list.  Either way the claim's "the candidate is skipped" fails. -/
theorem c3_marker_page_not_skipped :
    (pyIn "is not available" (pyLower "The bill text is not available") = true) ∧
    scrapeVersions (fun _ => some "The bill text is not available") (some 0) "2011"
        Chamber.upper [] "SB 1" demoIdx1 =
      .ok [⟨"sb1 x",
            "http://www.legis.state.wv.us/Bill_Status/bills_text.cfm?billdoc=sb1+x.htm&yr=2011&sesstype=RS&i=1",
            "text/html"⟩,
           ⟨"sb1 x",
            "ftp://www.legis.state.wv.us/publicdocs/2011/RS/senate/01-01/sb1%20x.wpd",
            "application/wordperfect"⟩] ∧
    scrapeVersions (fun _ => some "The bill text is not available") none "2011"
        Chamber.upper [] "SB 1" demoIdx1 = .error .attributeError :=
  ⟨by decide, by decide, by decide⟩

/-- Phase 2 with an uninitialized `guess_count` crashes at the first
unseen candidate whose fetch succeeds. -/
theorem processGuesses_crash (fetch : String → Option String) :
    ∀ (l : List (String × String)) (res : List Version) (cache : List UrlKey),
      (∃ p ∈ l, canonicalKey p.2 ∉ cache ∧ fetch p.2 ≠ none) →
      processGuesses fetch l res cache none = .error .attributeError := by
  intro l
  induction l with
  | nil =>
    intro res cache hex
    rcases hex with ⟨p, hp, -⟩
    simp at hp
  | cons hd rest ih =>
    intro res cache hex
    obtain ⟨fn, url⟩ := hd
    rw [processGuesses]
    by_cases hk : canonicalKey url ∈ cache
    · rw [if_pos hk]
      apply ih
      rcases hex with ⟨p, hp, hnc, hf⟩
      rcases List.mem_cons.1 hp with rfl | hp2
      · exact absurd hk hnc
      · exact ⟨p, hp2, hnc, hf⟩
    · rw [if_neg hk]
      cases hf : fetch url with
      | none =>
        simp only
        apply ih
        rcases hex with ⟨p, hp, hnc, hfe⟩
        rcases List.mem_cons.1 hp with rfl | hp2
        · exact absurd hf hfe
        · exact ⟨p, hp2, hnc, hfe⟩
      | some body => simp only

/-- C4: if the guessed-URL adapter yields at least one candidate whose
canonical key is unseen after phase 1 and whose fetch succeeds,
`scrape_versions` raises `AttributeError` at `self.guess_count += 1`
(the attribute is never assigned anywhere in the program, modelled as
`none`) instead of returning the version list. -/
theorem c4_uninitialized_guess_count_raises
    (fetch : String → Option String) (session : String) (chamber : Chamber)
    (page : List Anchor) (billId : String) (idx : Index)
    (normals : List Version) (guesses : List (String × String))
    (hn : scrapeVersionsNormally page = .ok normals)
    (hg : scrapeVersionsGuessUrl session idx billId = .ok guesses)
    (hex : ∃ p ∈ guesses,
      canonicalKey p.2 ∉ (addVersions normals ([], [])).2 ∧ fetch p.2 ≠ none) :
    scrapeVersions fetch none session chamber page billId idx =
      .error .attributeError := by
  rw [scrapeVersions, hn]
  simp only [hg]
  rw [processGuesses_crash fetch guesses _ _ hex]

/-- C4, witness: one guessed candidate, empty page, successful fetch. -/
theorem c4_uninitialized_guess_count_raises_witness :
    scrapeVersions (fun _ => some "page body") none "2011" Chamber.upper []
      "SB 1" demoIdx1 = .error .attributeError :=
  c4_uninitialized_guess_count_raises (fun _ => some "page body") "2011"
    Chamber.upper [] "SB 1" demoIdx1 []
    [("sb1 x", buildGuessUrl "2011" "1" "sb1 x")]
    (by decide) (by decide) (by decide)

/-! ## Claim C1: the reconciler is append-only and key-deduplicated -/

/-- The canonical keys of a descriptor list. -/
def keysOf (l : List Version) : List UrlKey := l.map (fun v => canonicalKey v.url)

/-- Order-preserving key-deduplication of a descriptor stream against a
seen-set. -/
def dedupByKey (seen : List UrlKey) : List Version → List Version
  | [] => []
  | v :: rest =>
    if canonicalKey v.url ∈ seen then dedupByKey seen rest
    else v :: dedupByKey (canonicalKey v.url :: seen) rest

theorem addVersions_eq (l : List Version) :
    ∀ (res : List Version) (cache : List UrlKey),
      (addVersions l (res, cache)).1 = res ++ dedupByKey cache l := by
  induction l with
  | nil => intro res cache; simp [addVersions, dedupByKey]
  | cons v rest ih =>
    intro res cache
    rw [addVersions, dedupByKey]
    by_cases hk : canonicalKey v.url ∈ cache
    · rw [if_pos hk, if_pos hk, ih]
    · rw [if_neg hk, if_neg hk, ih]
      simp

theorem dedupByKey_sublist (cache : List UrlKey) (l : List Version) :
    List.Sublist (dedupByKey cache l) l := by
  induction l generalizing cache with
  | nil => simp [dedupByKey]
  | cons v rest ih =>
    rw [dedupByKey]
    by_cases hk : canonicalKey v.url ∈ cache
    · rw [if_pos hk]
      exact List.Sublist.cons v (ih cache)
    · rw [if_neg hk]
      exact List.Sublist.cons₂ v (ih _)

/-- Adding one descriptor with an unseen key preserves the invariant
"result keys are distinct and all recorded in the seen-set". -/
theorem inv_snoc {res : List Version} {cache : List UrlKey} {v : Version}
    (h1 : (keysOf res).Nodup) (h2 : ∀ k ∈ keysOf res, k ∈ cache)
    (hk : canonicalKey v.url ∉ cache) :
    (keysOf (res ++ [v])).Nodup ∧
      (∀ k ∈ keysOf (res ++ [v]), k ∈ canonicalKey v.url :: cache) := by
  have hnotin : canonicalKey v.url ∉ keysOf res := fun hm => hk (h2 _ hm)
  constructor
  · simp only [keysOf, List.map_append, List.map_cons, List.map_nil]
    exact List.Nodup.append (by simpa [keysOf] using h1) (List.nodup_singleton _)
      (by intro k hk1 hk2
          rw [List.mem_singleton] at hk2
          subst hk2
          exact hnotin (by simpa [keysOf] using hk1))
  · intro k hkm
    simp only [keysOf, List.map_append, List.map_cons, List.map_nil] at hkm
    rcases List.mem_append.1 hkm with h3 | h3
    · exact List.mem_cons_of_mem _ (h2 k (by simpa [keysOf] using h3))
    · rw [List.mem_singleton] at h3
      subst h3
      exact List.mem_cons_self _ _

theorem addVersions_inv (l : List Version) :
    ∀ (res : List Version) (cache : List UrlKey),
      (keysOf res).Nodup → (∀ k ∈ keysOf res, k ∈ cache) →
      (keysOf (addVersions l (res, cache)).1).Nodup ∧
        (∀ k ∈ keysOf (addVersions l (res, cache)).1,
          k ∈ (addVersions l (res, cache)).2) := by
  induction l with
  | nil => intro res cache h1 h2; exact ⟨h1, h2⟩
  | cons v rest ih =>
    intro res cache h1 h2
    rw [addVersions]
    by_cases hk : canonicalKey v.url ∈ cache
    · rw [if_pos hk]
      exact ih res cache h1 h2
    · rw [if_neg hk]
      obtain ⟨h3, h4⟩ := inv_snoc h1 h2 hk
      exact ih _ _ h3 h4

/-- One unfolding step of phase 2 (definitional). -/
theorem processGuesses_cons (fetch : String → Option String) (fn url : String)
    (rest : List (String × String)) (res : List Version) (cache : List UrlKey)
    (gc : Option Nat) :
    processGuesses fetch ((fn, url) :: rest) res cache gc =
      if canonicalKey url ∈ cache then processGuesses fetch rest res cache gc
      else
        match fetch url with
        | none => processGuesses fetch rest res cache gc
        | some _ =>
          match gc with
          | none => .error .attributeError
          | some n =>
            processGuesses fetch rest (res ++ [⟨fn, url, "text/html"⟩])
              (canonicalKey url :: cache) (some (n + 1)) := rfl

/-- What a successful phase 2 adds: a sublist of the guessed candidates'
html descriptors, appended after the phase-1 result, with the key
invariant preserved. -/
theorem processGuesses_spec (fetch : String → Option String) :
    ∀ (l : List (String × String)) (res : List Version) (cache : List UrlKey)
      (gc : Option Nat) (res2 : List Version) (cache2 : List UrlKey)
      (gc2 : Option Nat),
      processGuesses fetch l res cache gc = .ok (res2, cache2, gc2) →
      (∃ t, res2 = res ++ t ∧
        List.Sublist t (l.map (fun p => (⟨p.1, p.2, "text/html"⟩ : Version)))) ∧
      ((keysOf res).Nodup → (∀ k ∈ keysOf res, k ∈ cache) →
        (keysOf res2).Nodup ∧ ∀ k ∈ keysOf res2, k ∈ cache2) := by
  intro l
  induction l with
  | nil =>
    intro res cache gc res2 cache2 gc2 h
    have h2 : (Except.ok (res, cache, gc) : Except SErr _) = .ok (res2, cache2, gc2) := h
    injection h2 with h1
    simp only [Prod.mk.injEq] at h1
    obtain ⟨rfl, rfl, rfl⟩ := h1
    exact ⟨⟨[], by simp, List.nil_sublist _⟩, fun a b => ⟨a, b⟩⟩
  | cons hd rest ih =>
    intro res cache gc res2 cache2 gc2 h
    obtain ⟨fn, url⟩ := hd
    rw [processGuesses_cons] at h
    by_cases hk : canonicalKey url ∈ cache
    · rw [if_pos hk] at h
      obtain ⟨⟨t, ht1, ht2⟩, hinv⟩ := ih res cache gc res2 cache2 gc2 h
      exact ⟨⟨t, ht1, List.Sublist.cons _ ht2⟩, hinv⟩
    · rw [if_neg hk] at h
      cases hf : fetch url with
      | none =>
        rw [hf] at h
        simp only at h
        obtain ⟨⟨t, ht1, ht2⟩, hinv⟩ := ih _ _ _ _ _ _ h
        exact ⟨⟨t, ht1, List.Sublist.cons _ ht2⟩, hinv⟩
      | some body =>
        rw [hf] at h
        simp only at h
        cases gc with
        | none => exact absurd h (by simp)
        | some n =>
          simp only at h
          obtain ⟨⟨t, ht1, ht2⟩, hinv⟩ := ih _ _ _ _ _ _ h
          refine ⟨⟨(⟨fn, url, "text/html"⟩ : Version) :: t, ?_, ?_⟩, ?_⟩
          · rw [ht1]; simp
          · exact List.Sublist.cons₂ _ ht2
          · intro h1 h2
            obtain ⟨h3, h4⟩ := @inv_snoc res cache ⟨fn, url, "text/html"⟩ h1 h2 hk
            exact hinv h3 h4

/-- C1: whenever `scrape_versions` returns a list, that list is the
key-deduplication of the linked-documents adapter's stream as a prefix,
followed by a subsequence of the guessed-URL candidates (as html
descriptors) in traversal order, followed by a subsequence of the
legacy-index adapter's stream in traversal order; a descriptor was added
only when its canonical URL key was unseen, so all keys in the result are
pairwise distinct, and nothing is ever reordered or sorted. -/
theorem c1_reconciler_append_only_dedup
    (fetch : String → Option String) (gc : Option Nat) (session : String)
    (chamber : Chamber) (page : List Anchor) (billId : String) (idx : Index)
    (res : List Version)
    (h : scrapeVersions fetch gc session chamber page billId idx = .ok res) :
    ∃ normals guesses r2 r3,
      scrapeVersionsNormally page = .ok normals ∧
      scrapeVersionsGuessUrl session idx billId = .ok guesses ∧
      res = dedupByKey [] normals ++ r2 ++ r3 ∧
      List.Sublist r2 (guesses.map (fun p => (⟨p.1, p.2, "text/html"⟩ : Version))) ∧
      List.Sublist r3 (scrapeVersionsWpd session chamber idx billId) ∧
      (keysOf res).Nodup := by
  rw [scrapeVersions] at h
  cases hn : scrapeVersionsNormally page with
  | error e => rw [hn] at h; exact absurd h (by simp)
  | ok normals =>
    rw [hn] at h
    simp only at h
    cases hg : scrapeVersionsGuessUrl session idx billId with
    | error e => rw [hg] at h; exact absurd h (by simp)
    | ok guesses =>
      rw [hg] at h
      simp only at h
      cases hp : processGuesses fetch guesses (addVersions normals ([], [])).1
          (addVersions normals ([], [])).2 gc with
      | error e => rw [hp] at h; exact absurd h (by simp)
      | ok trip =>
        obtain ⟨res2, cache2, gc2⟩ := trip
        rw [hp] at h
        simp only at h
        injection h with h1
        obtain ⟨⟨t, ht1, ht2⟩, hinv2⟩ :=
          processGuesses_spec fetch guesses _ _ gc res2 cache2 gc2 hp
        have hphase1 : (addVersions normals ([], [])).1 = dedupByKey [] normals := by
          simpa using addVersions_eq normals [] []
        have hinv1 := addVersions_inv normals [] [] (by simp [keysOf]) (by simp [keysOf])
        obtain ⟨hn2, hc2⟩ := hinv2 hinv1.1 hinv1.2
        have hphase3 := addVersions_eq
          (scrapeVersionsWpd session chamber idx billId) res2 cache2
        have hinv3 := addVersions_inv
          (scrapeVersionsWpd session chamber idx billId) res2 cache2 hn2 hc2
        refine ⟨normals, guesses, t,
          dedupByKey cache2 (scrapeVersionsWpd session chamber idx billId),
          rfl, rfl, ?_, ht2, dedupByKey_sublist _ _, ?_⟩
        · rw [← h1, hphase3, ht1, hphase1]
        · rw [← h1]
          exact hinv3.1

def demoPage : List Anchor :=
  [⟨"HTML - Introduced Version - SB 1", "http://x/a"⟩,
   ⟨"HTML - Introduced Version - SB 1", "http://x/A"⟩,
   ⟨"WordPerfect \"SB 1\"", "http://x/w.wpd"⟩]

/-- C1, witness: a page with two anchors whose URLs differ only in case
(equal canonical keys, so the second is deduplicated) plus a WordPerfect
anchor; the returned two-element list decomposes as the theorem states. -/
theorem c1_reconciler_append_only_dedup_witness :
    ∃ normals guesses r2 r3,
      scrapeVersionsNormally demoPage = .ok normals ∧
      scrapeVersionsGuessUrl "2011" [] "SB 1" = .ok guesses ∧
      ([⟨"Introduced Version", "http://x/a", "text/html"⟩,
        ⟨"SB 1", "http://x/w.wpd", "application/wordperfect"⟩] : List Version) =
        dedupByKey [] normals ++ r2 ++ r3 ∧
      List.Sublist r2 (guesses.map (fun p => (⟨p.1, p.2, "text/html"⟩ : Version))) ∧
      List.Sublist r3 (scrapeVersionsWpd "2011" Chamber.upper [] "SB 1") ∧
      (keysOf [⟨"Introduced Version", "http://x/a", "text/html"⟩,
        ⟨"SB 1", "http://x/w.wpd", "application/wordperfect"⟩]).Nodup :=
  c1_reconciler_append_only_dedup (fun _ => none) none "2011" Chamber.upper
    demoPage "SB 1" []
    [⟨"Introduced Version", "http://x/a", "text/html"⟩,
     ⟨"SB 1", "http://x/w.wpd", "application/wordperfect"⟩]
    (by decide)

end WV
